import Mathlib

/-!
Verification development for the pyflow package manager (src/src/main.rs).

The file embeds, as executable Lean definitions, the parts of the program
that the properties below are about:

* the `Os` tag and `Os::from_str` (main.rs lines 29-61);
* wheel-filename OS extraction `os_from_wheel_fname` (main.rs lines 445-459),
  with the semantics of the fixed regex `^(?:.*?-)+(.*).whl$` spelled out;
* the release classification and selection loop of `sync_deps`
  (main.rs lines 593-665);
* the install / uninstall diff and the ordering of effects in `sync_deps`
  (main.rs lines 574-699), with the external resolver, index client and
  installer taken as parameters;
* the lock-based constraint pre-pinning of the `install` subcommand
  (main.rs lines 931-961);
* the requirement filtering of the `uninstall` subcommand (main.rs 982-986);
* the section handling of `Config::from_file` (main.rs lines 178-206).

The crate's `dep_types` module (versions, constraints, requirement parsing)
is not part of the sources under verification; those definitions are
modelled from the specification (spec.md sections 3, 4.1 and 4.2) and are
marked as such in their doc comments.
-/

/-- Modelled from the spec (section 3): version modifiers
`dev(n), alpha(n), beta(n), rc(n), none, post(n)`, ordered as listed. -/
inductive Modifier : Type
| dev (n : Nat)
| alpha (n : Nat)
| beta (n : Nat)
| rc (n : Nat)
| none
| post (n : Nat)
deriving DecidableEq

/-- Rank of a modifier in the ordering `dev < alpha < beta < rc < none < post`. -/
def Modifier.rank : Modifier → Nat
| .dev _ => 0
| .alpha _ => 1
| .beta _ => 2
| .rc _ => 3
| .none => 4
| .post _ => 5

/-- The numeric argument of a modifier (0 for `none`). -/
def Modifier.num : Modifier → Nat
| .dev n => n
| .alpha n => n
| .beta n => n
| .rc n => n
| .none => 0
| .post n => n

/-- Modelled from the spec (section 3): a version is
`(major, minor?, patch?, extra?, modifier)`; minor/patch/extra are
distinguishable from zero but treated as zero for ordering. -/
structure Version : Type where
  major : Nat
  minor : Option Nat
  patch : Option Nat
  extra : Option Nat
  modifier : Modifier
deriving DecidableEq

/-- The defaulted ordering key
`(major, minor-or-0, patch-or-0, extra-or-0, modifier-rank, modifier-n)`. -/
def Version.key (v : Version) : List Nat :=
  [v.major, v.minor.getD 0, v.patch.getD 0, v.extra.getD 0,
   v.modifier.rank, v.modifier.num]

/-- Lexicographic strict order on equal-length `Nat` lists. -/
def natLexLt : List Nat → List Nat → Bool
| [], [] => false
| [], _ :: _ => true
| _ :: _, [] => false
| a :: as, b :: bs => a < b || (a == b && natLexLt as bs)

/-- Version equality: all components equal after defaulting (spec section 3). -/
def veq (v w : Version) : Bool := v.key == w.key

/-- Strict version order on defaulted keys. -/
def vlt (v w : Version) : Bool := natLexLt v.key w.key

/-- Non-strict version order on defaulted keys. -/
def vle (v w : Version) : Bool := vlt v w || veq v w

/-- Modelled from the spec (section 4.2):
`ReqType ∈ {Exact, Gte, Lte, Gt, Lt, Ne, Caret, Tilde}`. -/
inductive ReqType : Type
| exact
| gte
| lte
| gt
| lt
| ne
| caret
| tilde
deriving DecidableEq

/-- Modelled from the spec (section 3): a constraint is a pair
`(ReqType, Version)`. -/
structure Constraint : Type where
  ty : ReqType
  ver : Version
deriving DecidableEq

/-- `Constraint::new(type, major, minor, patch)` as used at main.rs 894 and 951:
builds a constraint whose version has no extra component and no modifier. -/
def Constraint.new (t : ReqType) (maj : Nat) (mnr ptc : Option Nat) : Constraint :=
  ⟨t, ⟨maj, mnr, ptc, Option.none, Modifier.none⟩⟩

/-- Exact-match semantics (spec section 3): candidate equals the constraint
version, with unspecified trailing components of the latter matching any. -/
def exactMatch (v cand : Version) : Bool :=
  v.major == cand.major &&
    (match v.minor with
     | Option.none => true
     | some m =>
       (m == cand.minor.getD 0) &&
         (match v.patch with
          | Option.none => true
          | some p =>
            (p == cand.patch.getD 0) &&
              (match v.extra with
               | Option.none => true
               | some e =>
                 (e == cand.extra.getD 0) &&
                   (v.modifier.rank == cand.modifier.rank &&
                    v.modifier.num == cand.modifier.num))))

/-- Upper bound of a caret range: computed from the leftmost nonzero
component of the base version (spec sections 3 and 4.2). -/
def caretUpper (v : Version) : Version :=
  if v.major ≠ 0 then ⟨v.major + 1, some 0, some 0, Option.none, Modifier.none⟩
  else if v.minor.getD 0 ≠ 0 then
    ⟨0, some (v.minor.getD 0 + 1), some 0, Option.none, Modifier.none⟩
  else ⟨0, some 0, some (v.patch.getD 0 + 1), Option.none, Modifier.none⟩

/-- Upper bound of a tilde range: next minor when minor was specified,
next major otherwise (spec section 3). -/
def tildeUpper (v : Version) : Version :=
  match v.minor with
  | some m => ⟨v.major, some (m + 1), some 0, Option.none, Modifier.none⟩
  | Option.none => ⟨v.major + 1, some 0, some 0, Option.none, Modifier.none⟩

/-- Modelled from the spec (section 3): `is_compatible` semantics of a
constraint against a candidate version. -/
def Constraint.isCompatible (c : Constraint) (cand : Version) : Bool :=
  match c.ty with
  | .exact => exactMatch c.ver cand
  | .gte => vle c.ver cand
  | .lte => vle cand c.ver
  | .gt => vlt c.ver cand
  | .lt => vlt cand c.ver
  | .ne => !(veq cand c.ver)
  | .caret => vle c.ver cand && vlt cand (caretUpper c.ver)
  | .tilde => vle c.ver cand && vlt cand (tildeUpper c.ver)

/-- Modelled from the spec (section 3 / C3): a requirement is a package name
with a list of constraints (extras and source tags are not needed here). -/
structure Req : Type where
  name : String
  constraints : List Constraint
deriving DecidableEq

/-- `enum Os` (main.rs lines 31-39). -/
inductive Os : Type
| linux32
| linux
| windows32
| windows
| mac
| any
deriving DecidableEq

/-- Whether `needle` occurs at the head of `hay`. -/
def subSeqAt : List Char → List Char → Bool
| [], _ => true
| _ :: _, [] => false
| a :: as, b :: bs => a == b && subSeqAt as bs

/-- Whether `needle` occurs contiguously anywhere in `hay`
(Rust's `str::contains`). -/
def hasSub (needle : List Char) : List Char → Bool
| [] => needle.isEmpty
| hay@(_ :: rest) => subSeqAt needle hay || hasSub needle rest

/-- `Os::from_str` (main.rs lines 44-60): the token table, with a
catch-all sending any other token containing "mac" to `Mac`;
a `None` result stands for the `DependencyError` return. -/
def osFromStr (s : String) : Option Os :=
  if s = "manylinux1_i686" then some Os.linux32
  else if s = "manylinux1_x86_64" then some Os.linux
  else if s = "win32" then some Os.windows32
  else if s = "win_amd64" then some Os.windows
  else if s = "darwin" then some Os.mac
  else if s = "any" then some Os.any
  else if hasSub "mac".data s.data then some Os.mac
  else Option.none

/-- The suffix of the list following its last `'-'`, if any dash occurs. -/
def afterLastDash : List Char → Option (List Char)
| [] => Option.none
| c :: rest =>
  match afterLastDash rest with
  | some r => some r
  | Option.none => if c == '-' then some rest else Option.none

/-- Capture group of the regex `^(?:.*?-)+(.*).whl$` of
`os_from_wheel_fname` (main.rs line 450) under Rust's leftmost-first match
semantics.  The block part `(?:.*?-)+` (greedy repetition of lazy blocks)
consumes through the last dash that still leaves at least the four
characters matched by `.whl` (the dot matches any character), so the match
succeeds exactly when the name ends in `whl` and a dash occurs before the
final four characters, and the capture is what stands between that dash
and the final four characters. -/
def wheelCapture (s : List Char) : Option (List Char) :=
  if s.drop (s.length - 3) = ['w', 'h', 'l'] then
    afterLastDash (s.take (s.length - 4))
  else Option.none

/-- Result of `os_from_wheel_fname` at its call sites: `ok` on success,
`err` for the explicit `DependencyError` when the regex does not match,
`panicked` for the `.expect` panic when the captured token is not a
recognized OS (main.rs lines 450-458). -/
inductive OsOut : Type
| ok (o : Os)
| err
| panicked
deriving DecidableEq

/-- `os_from_wheel_fname` (main.rs lines 445-459). -/
def osFromWheelFname (fname : String) : OsOut :=
  match wheelCapture fname.data with
  | Option.none => OsOut.err
  | some tok =>
    match osFromStr (String.mk tok) with
    | some o => OsOut.ok o
    | Option.none => OsOut.panicked

/-- Modelled from the spec (section 4.1, grammar 2): compact interpreter
tags `cpNN` or `pyNN` parse to the version `(N, N', 0)`; anything else is
a parse error (`Version::from_cp_str`, which lives in the absent
`dep_types` module). -/
def Version.fromCpStr (s : String) : Option Version :=
  match s.data with
  | c1 :: c2 :: d1 :: d2 :: [] =>
    if ((c1 == 'c' && c2 == 'p') || (c1 == 'p' && c2 == 'y'))
        && d1.isDigit && d2.isDigit then
      some ⟨d1.toNat - 48, some (d2.toNat - 48), some 0, Option.none, Modifier.none⟩
    else Option.none
  | _ => Option.none

/-- A release record returned by the index for one (name, version), as
used by `sync_deps` (spec section 6 index contract; main.rs 593-644).
`requires_python` is kept in already-parsed form: the crate parses it with
`Constraint::from_str` from the absent `dep_types` module, panicking if
the string is malformed; that parser is not modelled here. `sha256`
flattens the `digests.sha256` field. -/
structure Release : Type where
  packagetype : String
  requires_python : Option Constraint
  python_version : String
  filename : String
  url : String
  sha256 : String
deriving DecidableEq

/-- `install::PackageType` as used by `sync_deps`. -/
inductive PackageType : Type
| wheel
| source
deriving DecidableEq

/-- Outcome of a code path that can abort (via `util::abort`, which the
spec's section 7 defines as terminating the command) or panic (via
`unwrap`/`expect`). -/
inductive Outcome (α : Type) : Type
| ok (a : α)
| abortE (msg : String)
| panicked (msg : String)
deriving DecidableEq

/-- The classification loop of `sync_deps` (main.rs lines 593-644):
partition the index's releases into compatible wheels and source
releases, preserving index order.  A wheel is kept when its
`requires_python` (if present) accepts the host Python version, its
filename OS equals the host OS or `Any`, and its `python_version` tag
either fails to parse (warning only), parses to the host version, or is
the literal `py2.py3` / `py3`.  A wheel whose filename OS cannot be
determined panics (the two `expect`s of lines 607-608 and 453); any
package type other than `bdist_wheel` / `sdist` aborts. -/
def classifyReleases (os : Os) (pythonVers : Version) :
    List Release → Outcome (List Release × List Release)
| [] => Outcome.ok ([], [])
| rel :: rest =>
  if rel.packagetype = "bdist_wheel" then
    match osFromWheelFname rel.filename with
    | OsOut.err => Outcome.panicked "Problem getting os from wheel name"
    | OsOut.panicked => Outcome.panicked "Problem parsing Os"
    | OsOut.ok wheelOs =>
      let c1 : Bool :=
        match rel.requires_python with
        | Option.none => true
        | some pyReq => pyReq.isCompatible pythonVers
      let c2 : Bool := wheelOs == os || wheelOs == Os.any
      let c3 : Bool :=
        match Version.fromCpStr rel.python_version with
        | some reqV =>
          veq reqV pythonVers || rel.python_version == "py2.py3"
            || rel.python_version == "py3"
        | Option.none => true
      match classifyReleases os pythonVers rest with
      | Outcome.ok (compat, sources) =>
        Outcome.ok (if c1 && c2 && c3 then rel :: compat else compat, sources)
      | other => other
  else if rel.packagetype = "sdist" then
    match classifyReleases os pythonVers rest with
    | Outcome.ok (compat, sources) => Outcome.ok (compat, rel :: sources)
    | other => other
  else Outcome.abortE "Found surprising package type"

/-- The release choice of `sync_deps` (main.rs lines 646-665): first
compatible wheel, else first source release, else abort. -/
def selectRelease (os : Os) (pythonVers : Version) (data : List Release) :
    Outcome (Release × PackageType) :=
  match classifyReleases os pythonVers data with
  | Outcome.ok (compat, sources) =>
    match compat with
    | c :: _ => Outcome.ok (c, PackageType.wheel)
    | [] =>
      match sources with
      | s :: _ => Outcome.ok (s, PackageType.source)
      | [] => Outcome.abortE "Unable to find a compatible release"
  | Outcome.abortE m => Outcome.abortE m
  | Outcome.panicked m => Outcome.panicked m

/-- Canonical rendering of a modifier (spec section 4.1): canonical
spelling plus number, number omitted when zero. -/
def Modifier.render : Modifier → String
| .dev n => "dev" ++ (if n = 0 then "" else toString n)
| .alpha n => "a" ++ (if n = 0 then "" else toString n)
| .beta n => "b" ++ (if n = 0 then "" else toString n)
| .rc n => "rc" ++ (if n = 0 then "" else toString n)
| .none => ""
| .post n => "post" ++ (if n = 0 then "" else toString n)

/-- Modelled from the spec (section 4.1): deterministic rendering, absent
trailing components omitted (`Version::to_string` of the absent
`dep_types` module). -/
def Version.render (v : Version) : String :=
  toString v.major
    ++ (match v.minor with
        | Option.none => ""
        | some m =>
          "." ++ toString m
            ++ (match v.patch with
                | Option.none => ""
                | some p =>
                  "." ++ toString p
                    ++ (match v.extra with
                        | Option.none => ""
                        | some e => "." ++ toString e)))
    ++ v.modifier.render

/-- `dep_types::LockPackage` (spec section 3 lock model; built at
main.rs lines 707-719). -/
structure LockPackage : Type where
  name : String
  version : String
  source : Option String
  dependencies : Option (List String)
deriving DecidableEq

/-- `dep_types::Lock` (spec section 3 lock model). -/
structure Lock : Type where
  metadata : Option (List (String × String))
  package : Option (List LockPackage)
deriving DecidableEq

/-- The fresh lock written at the end of `sync_deps`
(main.rs lines 707-725). -/
def mkLock (resolved : List (String × Version)) : Lock :=
  { metadata := Option.none
    package := some (resolved.map (fun p =>
      { name := p.1
        version := p.2.render
        source := some ("pypi+https://pypi.org/pypi/" ++ p.1 ++ "/"
          ++ p.2.render ++ "/json")
        dependencies := Option.none })) }

/-- Lowering of one character: Rust's `to_lowercase` restricted to the
ASCII range in which package names live. -/
def lowerChar (c : Char) : Char :=
  if 65 ≤ c.toNat ∧ c.toNat ≤ 90 then Char.ofNat (c.toNat + 32) else c

/-- Rust's `str::to_lowercase` (ASCII). -/
def strLower (s : String) : String := String.mk (s.data.map lowerChar)

/-- The already-installed test of the install loop (main.rs lines 576-581):
some installed pair has the same lowercased name and an equal version. -/
def alreadyInstalled (installed : List (String × Version))
    (p : String × Version) : Bool :=
  installed.any (fun q => strLower q.1 == strLower p.1 && veq q.2 p.2)

/-- The still-required test of the uninstall loop (main.rs lines 690-695):
some resolved pair has the same lowercased name and an equal version. -/
def requiredIn (resolved : List (String × Version))
    (p : String × Version) : Bool :=
  resolved.any (fun q => strLower q.1 == strLower p.1 && veq q.2 p.2)

/-- One observable effect of a sync on the library directory. -/
inductive SyncAction : Type
| install (name : String) (version : Version)
| uninstall (name : String) (version : Version)
deriving DecidableEq

/-- The type of the external resolver `dep_resolution::resolve`
(main.rs line 564): requirements, installed inventory, host OS, extras
list and host Python version to a resolved set or an error. -/
def Resolver : Type :=
  List Req → List (String × Version) → Os → List String → Version →
    Except String (List (String × Version))

/-- The type of the external index lookup
`dep_resolution::get_warehouse_release` (main.rs line 586); `Option.none`
stands for its error, which `sync_deps` turns into a panic via `.expect`. -/
def Warehouse : Type := String → Version → Option (List Release)

/-- The type of the external installer
`install::download_and_install_package` (main.rs lines 673-686); `false`
stands for an installation error, on which `sync_deps` aborts. -/
def Installer : Type := String → Version → Release → PackageType → Bool

/-- The install loop of `sync_deps` (main.rs lines 574-687) over the
packages that are not already installed: for each one, fetch the index
data (panic when unavailable), pick a release (abort or panic as in
`classifyReleases`/`selectRelease`), and install it (abort on failure).
Returns the install actions performed before the first failure, and the
failure message if any. -/
def installPhase (warehouse : Warehouse) (installer : Installer)
    (os : Os) (pythonVers : Version) :
    List (String × Version) → List SyncAction × Option String
| [] => ([], Option.none)
| p :: rest =>
  match warehouse p.1 p.2 with
  | Option.none => ([], some "Problem getting warehouse data")
  | some data =>
    match selectRelease os pythonVers data with
    | Outcome.abortE m => ([], some m)
    | Outcome.panicked m => ([], some m)
    | Outcome.ok (rel, ptype) =>
      if installer p.1 p.2 rel ptype then
        let r := installPhase warehouse installer os pythonVers rest
        (SyncAction.install p.1 p.2 :: r.1, r.2)
      else ([], some "Problem downloading packages")

/-- The observable result of one `sync_deps` run: the library-directory
actions performed in order, the freshly written lock if the run got that
far, and the abort/panic message if it failed. -/
structure SyncResult : Type where
  actions : List SyncAction
  lockWritten : Option Lock
  failure : Option String
deriving DecidableEq

/-- The pairs the install loop acts on: resolved pairs not already
installed (the skip test of main.rs lines 574-584). -/
def toInstallList (resolved installed : List (String × Version)) :
    List (String × Version) :=
  resolved.filter (fun p => !(alreadyInstalled installed p))

/-- The pairs the uninstall loop removes (main.rs lines 689-699). -/
def toRemoveList (resolved installed : List (String × Version)) :
    List (String × Version) :=
  installed.filter (fun p => !(requiredIn resolved p))

/-- `sync_deps` (main.rs lines 533-730) with its external collaborators as
parameters: resolve with an empty extras list (line 562), abort when
resolution fails, install every resolved pair that is not already
installed (the `continue` of lines 576-584 is the filter), then uninstall
every installed pair no longer required, then write the fresh lock. -/
def syncDeps (resolveF : Resolver) (warehouse : Warehouse)
    (installer : Installer) (reqs : List Req)
    (installed : List (String × Version)) (os : Os) (pythonVers : Version) :
    SyncResult :=
  match resolveF reqs installed os ([] : List String) pythonVers with
  | Except.error _ =>
    { actions := [], lockWritten := Option.none
      failure := some "Problem resolving dependencies" }
  | Except.ok resolved =>
    match installPhase warehouse installer os pythonVers
        (toInstallList resolved installed) with
    | (acts, some m) =>
      { actions := acts, lockWritten := Option.none, failure := some m }
    | (acts, Option.none) =>
      { actions := acts ++ (toRemoveList resolved installed).map
            (fun p => SyncAction.uninstall p.1 p.2)
        lockWritten := some (mkLock resolved)
        failure := Option.none }

/-- The library directory contents after a list of actions: installs add
the package, uninstalls remove it. -/
def applyActions (lib : List (String × Version)) :
    List SyncAction → List (String × Version)
| [] => lib
| SyncAction.install n v :: rest => applyActions (lib ++ [(n, v)]) rest
| SyncAction.uninstall n v :: rest =>
  applyActions (lib.filter (fun p => !(p.1 == n && veq p.2 v))) rest

/-- The lock-based pre-pinning of the `install` subcommand
(main.rs lines 931-961): for each lock package whose name equals the
requirement's name (exact `==` on strings) and whose version every
current constraint accepts, the constraint set is replaced by the single
`Exact` constraint on that version.  Lock versions are given already
parsed; the crate parses them on the spot with
`Version::from_str(&lock_pack.version).unwrap()`. -/
def prePinStep (r : Req) (lp : String × Version) : Req :=
  if lp.1 == r.name then
    if r.constraints.all (fun c => c.isCompatible lp.2) then
      { r with constraints :=
          [Constraint.new ReqType.exact lp.2.major lp.2.minor lp.2.patch] }
    else r
  else r

def prePinReq (lockPacks : List (String × Version)) (req : Req) : Req :=
  lockPacks.foldl prePinStep req

/-- The requirement filtering of the `uninstall` subcommand
(main.rs lines 982-986): keep the config requirements whose name is not
in the removed-name list (exact `contains` on strings). -/
def updatedReqs (cfgReqs : List Req) (removedNames : List String) : List Req :=
  cfgReqs.filter (fun r => !(removedNames.contains r.name))

/-- Which manifest section `Config::from_file` is currently inside
(the three booleans `in_metadata`, `in_dep`, `in_extras` of
main.rs lines 172-174; `outside` is all false). -/
inductive TomlSection : Type
| metadata
| dep
| extras
| outside
deriving DecidableEq

/-- Rust's `l.starts_with('#')` (main.rs line 182): the first character
is `#`. -/
def startsWithHash (l : String) : Bool :=
  match l.data with
  | [] => false
  | c :: _ => c == '#'

/-- The regex `\[.*\]` used unanchored via `is_match`
(main.rs lines 176 and 201): true iff a `']'` occurs somewhere after a
`'['`. -/
def hasBracketPair (l : String) : Bool :=
  ((l.data.dropWhile (fun c => c != '[')).drop 1).contains ']'

/-- The per-line section transition of `Config::from_file`
(main.rs lines 178-206): comment lines starting with `#` are skipped;
the three section headers are recognized by exact string equality; any
other line matching `\[.*\]` leaves all three section flags false; other
lines do not change the section. -/
def sectionStep (st : TomlSection) (l : String) : TomlSection :=
  if startsWithHash l then st
  else if l = "[tool.pypackage]" then TomlSection.metadata
  else if l = "[tool.pypackage.dependencies]" then TomlSection.dep
  else if l = "[tool.pypackage.features]" then TomlSection.extras
  else if hasBracketPair l then TomlSection.outside
  else st

/-- Digits-only string to number. -/
def parseNat? (cs : List Char) : Option Nat :=
  if !cs.isEmpty && cs.all Char.isDigit then
    some (cs.foldl (fun acc c => acc * 10 + (c.toNat - 48)) 0)
  else Option.none

/-- Modelled from the spec (section 4.1): modifier suffix spellings
`dev`, `a|alpha`, `b|beta`, `rc|c`, `post`, optionally followed by digits. -/
def modOfName (nm : String) (n : Nat) : Option Modifier :=
  if nm = "dev" then some (Modifier.dev n)
  else if nm = "a" ∨ nm = "alpha" then some (Modifier.alpha n)
  else if nm = "b" ∨ nm = "beta" then some (Modifier.beta n)
  else if nm = "rc" ∨ nm = "c" then some (Modifier.rc n)
  else if nm = "post" then some (Modifier.post n)
  else Option.none

/-- Leading and trailing whitespace removed (Rust's `str::trim`). -/
def trimChars (cs : List Char) : List Char :=
  ((cs.dropWhile Char.isWhitespace).reverse.dropWhile Char.isWhitespace).reverse

/-- Split a character list on a separator character
(Rust's `str::split` / `String::split_on`). -/
def splitOnChar (sep : Char) : List Char → List (List Char)
| [] => [[]]
| c :: rest =>
  match splitOnChar sep rest with
  | [] => [[c]]
  | g :: gs => if c == sep then [] :: g :: gs else (c :: g) :: gs

/-- Modelled from the spec (sections 4.1-4.2): parse the last dotted
chunk of a version, `NUM SUFFIX?`, or the star wildcard `*` which leaves
the component unspecified. -/
def parseTail (c : List Char) : Option (Option Nat × Modifier) :=
  if c = ['*'] then some (Option.none, Modifier.none)
  else
    let ds := c.takeWhile Char.isDigit
    let rest := c.drop ds.length
    match parseNat? ds with
    | Option.none => Option.none
    | some k =>
      if rest.isEmpty then some (some k, Modifier.none)
      else
        let nm := rest.takeWhile (fun ch => !ch.isDigit)
        let nds := rest.drop nm.length
        match (if nds.isEmpty then some 0 else parseNat? nds) with
        | Option.none => Option.none
        | some nn => (modOfName (String.mk nm) nn).map (fun m => (some k, m))

/-- Modelled from the spec (section 4.1): the dotted-numeric version
grammar `NUM ("." NUM)* SUFFIX?`, up to four components, with the star
wildcard leaving trailing components unspecified
(`Version::from_str` of the absent `dep_types` module). -/
def Version.fromStr (s : String) : Option Version :=
  match splitOnChar '.' (trimChars s.data) with
  | [a] => do
    let t ← parseTail a
    let mj ← t.1
    pure ⟨mj, Option.none, Option.none, Option.none, t.2⟩
  | [a, b] => do
    let mj ← parseNat? a
    let t ← parseTail b
    pure ⟨mj, t.1, Option.none, Option.none, t.2⟩
  | [a, b, c] => do
    let mj ← parseNat? a
    let mn ← parseNat? b
    let t ← parseTail c
    pure ⟨mj, some mn, t.1, Option.none, t.2⟩
  | [a, b, c, d] => do
    let mj ← parseNat? a
    let mn ← parseNat? b
    let pt ← parseNat? c
    let t ← parseTail d
    pure ⟨mj, some mn, some pt, t.1, t.2⟩
  | _ => Option.none

/-- Modelled from the spec (section 4.2): split the leading operator off
a constraint clause; a missing operator defaults to `Caret`, except that
a bare wildcard version becomes `Exact`. -/
def opSplit (cs : List Char) : ReqType × List Char :=
  match cs with
  | '=' :: '=' :: rest => (ReqType.exact, rest)
  | '>' :: '=' :: rest => (ReqType.gte, rest)
  | '<' :: '=' :: rest => (ReqType.lte, rest)
  | '!' :: '=' :: rest => (ReqType.ne, rest)
  | '^' :: rest => (ReqType.caret, rest)
  | '~' :: rest => (ReqType.tilde, rest)
  | '=' :: rest => (ReqType.exact, rest)
  | '>' :: rest => (ReqType.gt, rest)
  | '<' :: rest => (ReqType.lt, rest)
  | _ => (if cs.contains '*' then ReqType.exact else ReqType.caret, cs)

/-- Modelled from the spec (section 4.2): one constraint clause
`OP? VERSION`. -/
def parseConstraintClause (s : List Char) : Option Constraint :=
  let p := opSplit (trimChars s)
  (Version.fromStr (String.mk p.2)).map (fun v => ⟨p.1, v⟩)

/-- Modelled from the spec (section 4.2): a constraint string is a
comma-separated list of clauses; the empty string yields no constraints. -/
def parseConstraintList (s : List Char) : Option (List Constraint) :=
  if trimChars s = [] then some []
  else (splitOnChar ',' s).mapM parseConstraintClause

/-- Modelled from the spec (sections 3 / C3 and 6): a manifest dependency
line has the form `name = "constraint-string"`; anything else is a parse
error (`Req::from_str` with `pypi_fmt = false` of the absent `dep_types`
module, as invoked on dependency-section lines at main.rs line 237). -/
def Req.fromStr (l : String) : Option Req :=
  let cs := l.data
  let nameCs := trimChars (cs.takeWhile (fun c => c != '='))
  match cs.drop (cs.takeWhile (fun c => c != '=')).length with
  | '=' :: valCs =>
    (match nameCs, trimChars valCs with
     | [], _ => Option.none
     | _ :: _, '"' :: rest =>
       if rest.getLast? == some '"' then
         (parseConstraintList rest.dropLast).map
           (fun cl => { name := String.mk nameCs, constraints := cl })
       else Option.none
     | _ :: _, _ => Option.none)
  | _ => Option.none

/-- Result of handling one dependency-section manifest line. -/
inductive DepLineResult : Type
| ok (r : Option Req)
| panicked
deriving DecidableEq

/-- The dependency-section branch of `Config::from_file`
(main.rs lines 236-238): empty lines are skipped, any other line is
parsed with `Req::from_str(&l, false).unwrap()`, which panics when the
line is malformed. -/
def depLineHandle (l : String) : DepLineResult :=
  if l = "" then DepLineResult.ok Option.none
  else
    match Req.fromStr l with
    | some r => DepLineResult.ok (some r)
    | Option.none => DepLineResult.panicked

/-- The OS token table as the specification states it (spec section 6
platform detection): the six listed tokens, then anything containing
`mac` goes to `Mac`, anything else fails. -/
def specOsMap (tok : String) : Option Os :=
  if tok = "manylinux1_i686" then some Os.linux32
  else if tok = "manylinux1_x86_64" then some Os.linux
  else if tok = "win32" then some Os.windows32
  else if tok = "win_amd64" then some Os.windows
  else if tok = "darwin" then some Os.mac
  else if tok = "any" then some Os.any
  else if hasSub "mac".data tok.data then some Os.mac
  else Option.none

theorem afterLastDash_of_not_mem (b : List Char) (hb : '-' ∉ b) :
    afterLastDash b = Option.none := by
  induction b with
  | nil => rfl
  | cons c rest ih =>
    have hc : c ≠ '-' := fun h => hb (h ▸ List.mem_cons_self c rest)
    have hrest : '-' ∉ rest := fun h => hb (List.mem_cons_of_mem c h)
    simp [afterLastDash, ih hrest, hc]

theorem afterLastDash_append (a b : List Char) (hb : '-' ∉ b) :
    afterLastDash (a ++ '-' :: b) = some b := by
  induction a with
  | nil => simp [afterLastDash, afterLastDash_of_not_mem b hb]
  | cons c a ih => simp [afterLastDash, ih]

theorem wheelCapture_segment (a b : List Char) (hb : '-' ∉ b) :
    wheelCapture (a ++ '-' :: (b ++ ['.', 'w', 'h', 'l'])) = some b := by
  have hsplit1 : a ++ '-' :: (b ++ ['.', 'w', 'h', 'l'])
      = (a ++ '-' :: (b ++ ['.'])) ++ ['w', 'h', 'l'] := by simp
  have hsplit2 : a ++ '-' :: (b ++ ['.', 'w', 'h', 'l'])
      = (a ++ '-' :: b) ++ ['.', 'w', 'h', 'l'] := by simp
  have hlen : (a ++ '-' :: (b ++ ['.', 'w', 'h', 'l'])).length
      = a.length + b.length + 5 := by simp; omega
  have hlen1 : (a ++ '-' :: (b ++ ['.'])).length = a.length + b.length + 2 := by
    simp; omega
  have hlen2 : (a ++ '-' :: b).length = a.length + b.length + 1 := by
    simp; omega
  unfold wheelCapture
  rw [hlen]
  have hdrop : (a ++ '-' :: (b ++ ['.', 'w', 'h', 'l'])).drop
      (a.length + b.length + 5 - 3) = ['w', 'h', 'l'] := by
    rw [hsplit1]
    have : a.length + b.length + 5 - 3 = (a ++ '-' :: (b ++ ['.'])).length := by
      rw [hlen1]; omega
    rw [this, List.drop_left]
  have htake : (a ++ '-' :: (b ++ ['.', 'w', 'h', 'l'])).take
      (a.length + b.length + 5 - 4) = a ++ '-' :: b := by
    rw [hsplit2]
    exact List.take_left' (by rw [hlen2]; omega)
  rw [hdrop, htake, if_pos rfl]
  exact afterLastDash_append a b hb

/-- C7: the wheel OS is obtained by taking the capture of the regex
`^(?:.*?-)+(.*).whl$` — the final dash-delimited segment before the
four `.whl` characters — and mapping the token through the claimed
table (`manylinux1_i686 → Linux32`, `manylinux1_x86_64 → Linux`,
`win32 → Windows32`, `win_amd64 → Windows`, `darwin → Mac`, `any → Any`,
any other token containing `mac` → Mac). -/
theorem c7_wheel_os_parsing :
    (∀ s, osFromStr s = specOsMap s)
    ∧ (∀ a b : List Char, '-' ∉ b →
        wheelCapture (a ++ '-' :: (b ++ ['.', 'w', 'h', 'l'])) = some b)
    ∧ (∀ fname : String,
        osFromWheelFname fname
          = match wheelCapture fname.data with
            | Option.none => OsOut.err
            | some tok =>
              match specOsMap (String.mk tok) with
              | some o => OsOut.ok o
              | Option.none => OsOut.panicked) := by
  refine ⟨fun s => rfl, wheelCapture_segment, fun fname => ?_⟩
  unfold osFromWheelFname
  cases wheelCapture fname.data with
  | none => rfl
  | some tok => rfl

/-- Witness for C7 at a concrete filename: the capture of
`demo-1.0-py3-none-any.whl` is `any`. -/
theorem c7_wheel_os_parsing_witness :
    wheelCapture ("demo-1.0-py3-none".data ++ '-' :: ("any".data ++ ['.', 'w', 'h', 'l']))
      = some "any".data :=
  c7_wheel_os_parsing.2.1 "demo-1.0-py3-none".data "any".data (by decide)

/-- C9: when reading the manifest, lines beginning with `#` are ignored;
a line switches the parser into the metadata, dependencies or features
section iff it is an exact-string match of the corresponding bracketed
header; any other line matching the bracket pattern leaves the parser
outside all three sections. -/
theorem c9_manifest_sections :
    (∀ st l, startsWithHash l = true → sectionStep st l = st)
    ∧ (∀ st l, startsWithHash l = false →
        ((sectionStep st l = TomlSection.metadata ↔
           (l = "[tool.pypackage]"
             ∨ (st = TomlSection.metadata ∧ l ≠ "[tool.pypackage.dependencies]"
                 ∧ l ≠ "[tool.pypackage.features]" ∧ hasBracketPair l = false)))
         ∧ (sectionStep st l = TomlSection.dep ↔
           (l = "[tool.pypackage.dependencies]"
             ∨ (st = TomlSection.dep ∧ l ≠ "[tool.pypackage]"
                 ∧ l ≠ "[tool.pypackage.features]" ∧ hasBracketPair l = false)))
         ∧ (sectionStep st l = TomlSection.extras ↔
           (l = "[tool.pypackage.features]"
             ∨ (st = TomlSection.extras ∧ l ≠ "[tool.pypackage]"
                 ∧ l ≠ "[tool.pypackage.dependencies]" ∧ hasBracketPair l = false)))))
    ∧ (∀ st l, startsWithHash l = false → l ≠ "[tool.pypackage]" →
        l ≠ "[tool.pypackage.dependencies]" → l ≠ "[tool.pypackage.features]" →
        hasBracketPair l = true → sectionStep st l = TomlSection.outside) := by
  refine ⟨fun st l h => by simp [sectionStep, h], fun st l h => ?_, ?_⟩
  · unfold sectionStep
    rw [h]
    simp only [Bool.false_eq_true, if_false]
    split_ifs with h1 h2 h3 h4 <;> constructor <;> constructor <;> simp_all
  · intro st l h h1 h2 h3 h4
    simp [sectionStep, h, h1, h2, h3, h4]

/-- Witness for C9: the dependencies header switches into the
dependencies section, a comment line is ignored, and an unrelated
bracketed header leaves the parser outside all sections. -/
theorem c9_manifest_sections_witness :
    sectionStep TomlSection.outside "[tool.pypackage.dependencies]" = TomlSection.dep
    ∧ sectionStep TomlSection.dep "# note" = TomlSection.dep
    ∧ sectionStep TomlSection.dep "[tool.other]" = TomlSection.outside :=
  ⟨(c9_manifest_sections.2.1 TomlSection.outside "[tool.pypackage.dependencies]"
      (by decide)).2.1.mpr (Or.inl rfl),
   c9_manifest_sections.1 TomlSection.dep "# note" (by decide),
   c9_manifest_sections.2.2 TomlSection.dep "[tool.other]" (by decide)
     (by decide) (by decide) (by decide) (by decide)⟩

/-- Counterexample to C8 as stated: the manifest dependency line
`foo = "???"` is malformed (its constraint string parses to no version),
and `Config::from_file` handles it with `Req::from_str(&l, false).unwrap()`
(main.rs line 237), which panics instead of returning an explicit error
or aborting. -/
theorem c8_counterexample :
    depLineHandle "foo = \"???\"" = DepLineResult.panicked := by decide

/-- C8 amended: the engine does fail by exception-like unwinding at the
cited sites, and those failures are characterized exactly: handling a
non-empty manifest dependency line panics precisely when `Req::from_str`
fails on it (`unwrap`, main.rs line 237); `os_from_wheel_fname` panics
precisely when the regex captures a token that `Os::from_str` rejects
(`expect`, main.rs line 453), and returns its explicit `DependencyError`
precisely when the regex does not match at all; and an index lookup that
yields no data for a package being installed stops the whole sync with
the message of the `expect` panic at main.rs lines 586-587, performing
no further action. -/
theorem c8_panic_sites :
    (∀ l, depLineHandle l = DepLineResult.panicked
      ↔ (l ≠ "" ∧ Req.fromStr l = Option.none))
    ∧ (∀ fname, osFromWheelFname fname = OsOut.panicked
      ↔ ∃ tok, wheelCapture fname.data = some tok
          ∧ osFromStr (String.mk tok) = Option.none)
    ∧ (∀ fname, osFromWheelFname fname = OsOut.err
      ↔ wheelCapture fname.data = Option.none)
    ∧ (∀ (warehouse : Warehouse) (installer : Installer) (os : Os)
        (pythonVers : Version) (p : String × Version)
        (rest : List (String × Version)),
        warehouse p.1 p.2 = Option.none →
        installPhase warehouse installer os pythonVers (p :: rest)
          = ([], some "Problem getting warehouse data")) := by
  refine ⟨fun l => ?_, fun fname => ?_, fun fname => ?_,
    fun warehouse installer os pythonVers p rest hw => ?_⟩
  · unfold depLineHandle
    by_cases h : l = ""
    · simp [h]
    · cases hr : Req.fromStr l <;> simp [h, hr]
  · unfold osFromWheelFname
    cases hc : wheelCapture fname.data with
    | none => simp
    | some tok => cases ho : osFromStr (String.mk tok) <;> simp [ho]
  · unfold osFromWheelFname
    cases hc : wheelCapture fname.data with
    | none => simp
    | some tok => cases ho : osFromStr (String.mk tok) <;> simp [ho]
  · rw [installPhase]
    simp only [hw]

/-- Witness for C8 amended at a concrete input: an index with no data
for package `a` stops the install phase at once with the panic message
of main.rs lines 586-587. -/
theorem c8_panic_sites_witness :
    installPhase (fun _ _ => Option.none) (fun _ _ _ _ => true) Os.linux
        ⟨3, some 7, Option.none, Option.none, Modifier.none⟩
        [("a", ⟨1, some 0, some 0, Option.none, Modifier.none⟩)]
      = ([], some "Problem getting warehouse data") :=
  c8_panic_sites.2.2.2 (fun _ _ => Option.none) (fun _ _ _ _ => true)
    Os.linux ⟨3, some 7, Option.none, Option.none, Modifier.none⟩
    ("a", ⟨1, some 0, some 0, Option.none, Modifier.none⟩) [] rfl

theorem prePin_foldl_skip (lps : List (String × Version)) (r : Req)
    (h : ∀ lp ∈ lps, lp.1 ≠ r.name) : lps.foldl prePinStep r = r := by
  induction lps with
  | nil => rfl
  | cons lp tl ih =>
    have hn : lp.1 ≠ r.name := h lp (List.mem_cons_self lp tl)
    have : prePinStep r lp = r := by
      unfold prePinStep
      simp [hn]
    rw [List.foldl_cons, this]
    exact ih (fun q hq => h q (List.mem_cons_of_mem lp hq))

theorem prePin_foldl_unchanged (lps : List (String × Version)) (r : Req)
    (h : ∀ lp ∈ lps, lp.1 ≠ r.name
      ∨ r.constraints.all (fun c => c.isCompatible lp.2) = false) :
    lps.foldl prePinStep r = r := by
  induction lps with
  | nil => rfl
  | cons lp tl ih =>
    have hstep : prePinStep r lp = r := by
      unfold prePinStep
      rcases h lp (List.mem_cons_self lp tl) with hn | hc
      · simp [hn]
      · simp [hc]
    rw [List.foldl_cons, hstep]
    exact ih (fun q hq => h q (List.mem_cons_of_mem lp hq))

/-- Counterexample to C5 as stated: names are not compared
case-insensitively everywhere.  With the lock entry named `NumPy`
(version 1.22.0) and the requirement named `numpy` with the compatible
constraint `^1`, the pre-pin lookup (exact `==`, main.rs line 935) leaves
the requirement unchanged instead of pinning it; and the uninstall
command's filter (exact `contains`, main.rs line 985) keeps a config
requirement named `NumPy` when `numpy` was removed. -/
theorem c5_counterexample :
    prePinReq [("NumPy", ⟨1, some 22, some 0, Option.none, Modifier.none⟩)]
        ⟨"numpy", [Constraint.new ReqType.caret 1 Option.none Option.none]⟩
      = ⟨"numpy", [Constraint.new ReqType.caret 1 Option.none Option.none]⟩
    ∧ strLower "NumPy" = strLower "numpy"
    ∧ (List.all [Constraint.new ReqType.caret 1 Option.none Option.none]
        (fun c => c.isCompatible ⟨1, some 22, some 0, Option.none, Modifier.none⟩)) = true
    ∧ updatedReqs [⟨"NumPy", []⟩] ["numpy"] = [⟨"NumPy", []⟩] := by
  refine ⟨by decide, by decide, by decide, by decide⟩

/-- C5 amended: the install diff of the sync engine compares names
case-insensitively (its two tests are invariant under the casing of the
probed name), while the lock pre-pin lookup and the uninstall command's
requirement filter compare names by exact string equality; original
casing is preserved (the diff and the pre-pin never rewrite a name). -/
theorem c5_name_comparisons :
    (∀ installed n n2 v, strLower n = strLower n2 →
      alreadyInstalled installed (n, v) = alreadyInstalled installed (n2, v))
    ∧ (∀ resolved n n2 v, strLower n = strLower n2 →
      requiredIn resolved (n, v) = requiredIn resolved (n2, v))
    ∧ (∀ lockPacks (req : Req), (∀ lp ∈ lockPacks, lp.1 ≠ req.name) →
      prePinReq lockPacks req = req)
    ∧ (∀ lockPacks (req : Req), (prePinReq lockPacks req).name = req.name)
    ∧ (∀ cfgReqs removedNames (r : Req),
      r ∈ updatedReqs cfgReqs removedNames
        ↔ (r ∈ cfgReqs ∧ removedNames.contains r.name = false)) := by
  refine ⟨fun installed n n2 v h => ?_, fun resolved n n2 v h => ?_,
    fun lockPacks req h => prePin_foldl_skip lockPacks req h,
    fun lockPacks req => ?_, fun cfgReqs removedNames r => ?_⟩
  · unfold alreadyInstalled
    simp [h]
  · unfold requiredIn
    simp [h]
  · unfold prePinReq
    induction lockPacks generalizing req with
    | nil => rfl
    | cons lp tl ih =>
      rw [List.foldl_cons]
      have hname : (prePinStep req lp).name = req.name := by
        unfold prePinStep
        split_ifs <;> rfl
      rw [ih (prePinStep req lp), hname]
  · unfold updatedReqs
    simp [List.mem_filter]

/-- Witness for C5 amended at concrete inputs: changing the casing of the
probed name does not change the install diff test, and a lock entry with
a different exact name never pre-pins. -/
theorem c5_name_comparisons_witness :
    alreadyInstalled [("numpy", ⟨1, some 22, some 0, Option.none, Modifier.none⟩)]
        ("NUMPY", ⟨1, some 22, some 0, Option.none, Modifier.none⟩)
      = alreadyInstalled [("numpy", ⟨1, some 22, some 0, Option.none, Modifier.none⟩)]
        ("numpy", ⟨1, some 22, some 0, Option.none, Modifier.none⟩)
    ∧ prePinReq [("abc", ⟨1, Option.none, Option.none, Option.none, Modifier.none⟩)]
        ⟨"xyz", []⟩ = ⟨"xyz", []⟩ :=
  ⟨c5_name_comparisons.1 [("numpy", ⟨1, some 22, some 0, Option.none, Modifier.none⟩)]
      "NUMPY" "numpy" ⟨1, some 22, some 0, Option.none, Modifier.none⟩ (by decide),
   c5_name_comparisons.2.2.1 [("abc", ⟨1, Option.none, Option.none, Option.none, Modifier.none⟩)]
      ⟨"xyz", []⟩ (by decide)⟩

/-- C4: on the install command with a lock present, a requirement whose
name has a (unique) lock entry and whose every constraint accepts the
locked version has its constraint set replaced by the single constraint
`Exact locked-version`; a requirement none of whose matching lock entries
is accepted by all its constraints is left unchanged. -/
theorem c4_lock_prepin (lockPacks : List (String × Version)) (req : Req)
    (huniq : lockPacks.Pairwise (fun p q => p.1 ≠ q.1)) :
    (∀ lp ∈ lockPacks, lp.1 = req.name →
       req.constraints.all (fun c => c.isCompatible lp.2) = true →
       (prePinReq lockPacks req).constraints
         = [Constraint.new ReqType.exact lp.2.major lp.2.minor lp.2.patch])
    ∧ ((∀ lp ∈ lockPacks, lp.1 = req.name →
         req.constraints.all (fun c => c.isCompatible lp.2) = false) →
       prePinReq lockPacks req = req) := by
  constructor
  · induction lockPacks with
    | nil => intro lp hmem; exact absurd hmem (List.not_mem_nil lp)
    | cons lp0 tl ih =>
      rw [List.pairwise_cons] at huniq
      intro lp hmem hname hall
      rcases List.mem_cons.mp hmem with heq | htl
      · subst heq
        unfold prePinReq
        rw [List.foldl_cons]
        have hstep : prePinStep req lp
            = { req with constraints :=
                [Constraint.new ReqType.exact lp.2.major lp.2.minor lp.2.patch] } := by
          unfold prePinStep
          simp [hname, hall]
        rw [hstep]
        rw [prePin_foldl_skip]
        intro q hq
        have := huniq.1 q hq
        rw [hname] at this
        simpa using this.symm
      · have hskip : prePinStep req lp0 = req := by
          unfold prePinStep
          have : lp0.1 ≠ lp.1 := huniq.1 lp htl
          rw [hname] at this
          simp [this]
        unfold prePinReq
        rw [List.foldl_cons, hskip]
        exact ih huniq.2 lp htl hname hall
  · intro h
    apply prePin_foldl_unchanged
    intro lp hmem
    by_cases hn : lp.1 = req.name
    · exact Or.inr (h lp hmem hn)
    · exact Or.inl hn

/-- Witness for C4 at concrete inputs: the lock pins `numpy = 1.22.0` and
the requirement `numpy ^1` becomes `numpy == 1.22.0`. -/
theorem c4_lock_prepin_witness :
    (prePinReq [("numpy", ⟨1, some 22, some 0, Option.none, Modifier.none⟩)]
        ⟨"numpy", [Constraint.new ReqType.caret 1 Option.none Option.none]⟩).constraints
      = [Constraint.new ReqType.exact 1 (some 22) (some 0)] :=
  (c4_lock_prepin [("numpy", ⟨1, some 22, some 0, Option.none, Modifier.none⟩)]
      ⟨"numpy", [Constraint.new ReqType.caret 1 Option.none Option.none]⟩
      (by simp)).1
    ("numpy", ⟨1, some 22, some 0, Option.none, Modifier.none⟩)
    (by simp) rfl (by decide)

/-- C6: when resolution fails, the sync engine aborts before performing
any install, any uninstall, or any rewrite of the lock file: the run
performs no library-directory action and writes no lock. -/
theorem c6_resolution_failure (resolveF : Resolver) (warehouse : Warehouse)
    (installer : Installer) (reqs : List Req)
    (installed : List (String × Version)) (os : Os) (pythonVers : Version)
    (e : String)
    (h : resolveF reqs installed os [] pythonVers = Except.error e) :
    syncDeps resolveF warehouse installer reqs installed os pythonVers
      = { actions := [], lockWritten := Option.none
          failure := some "Problem resolving dependencies" } := by
  unfold syncDeps
  rw [h]

/-- Witness for C6 at concrete inputs: a resolver reporting a conflict
yields an empty action list and no lock write. -/
theorem c6_resolution_failure_witness :
    syncDeps (fun _ _ _ _ _ => Except.error "Conflict(a)")
        (fun _ _ => Option.none) (fun _ _ _ _ => true) [] []
        Os.linux ⟨3, some 7, Option.none, Option.none, Modifier.none⟩
      = { actions := [], lockWritten := Option.none
          failure := some "Problem resolving dependencies" } :=
  c6_resolution_failure (fun _ _ _ _ _ => Except.error "Conflict(a)")
    (fun _ _ => Option.none) (fun _ _ _ _ => true) [] []
    Os.linux ⟨3, some 7, Option.none, Option.none, Modifier.none⟩
    "Conflict(a)" rfl

/-- C10: every invocation of the sync engine passes the empty extras list
to the resolver — the sync result depends on the resolver only through
its value at the empty extras list, so declared feature groups never
influence what is installed. -/
theorem c10_extras_empty (resolveF resolveG : Resolver)
    (warehouse : Warehouse) (installer : Installer) (reqs : List Req)
    (installed : List (String × Version)) (os : Os) (pythonVers : Version)
    (h : resolveF reqs installed os [] pythonVers
      = resolveG reqs installed os [] pythonVers) :
    syncDeps resolveF warehouse installer reqs installed os pythonVers
      = syncDeps resolveG warehouse installer reqs installed os pythonVers := by
  unfold syncDeps
  rw [h]

/-- Witness for C10 at concrete inputs: two resolvers that differ on any
non-empty extras list but agree on the empty one yield identical syncs. -/
theorem c10_extras_empty_witness :
    syncDeps (fun _ _ _ _ _ => Except.ok []) (fun _ _ => Option.none)
        (fun _ _ _ _ => true) [] [] Os.linux
        ⟨3, some 7, Option.none, Option.none, Modifier.none⟩
      = syncDeps (fun _ _ _ extras _ =>
            if extras.isEmpty then Except.ok [] else Except.error "extras used")
        (fun _ _ => Option.none) (fun _ _ _ _ => true) [] [] Os.linux
        ⟨3, some 7, Option.none, Option.none, Modifier.none⟩ :=
  c10_extras_empty (fun _ _ _ _ _ => Except.ok [])
    (fun _ _ _ extras _ =>
      if extras.isEmpty then Except.ok [] else Except.error "extras used")
    (fun _ _ => Option.none) (fun _ _ _ _ => true) [] [] Os.linux
    ⟨3, some 7, Option.none, Option.none, Modifier.none⟩ rfl

/-- The wheel-compatibility test of the classification loop (main.rs
lines 596-636), as a predicate on one release: the release is a wheel
whose filename OS parses, whose `requires_python` (if present) accepts
the host Python version, whose filename OS is the host OS or `Any`, and
whose `python_version` tag fails to parse, parses to the host version,
or is `py2.py3` / `py3`. -/
def wheelOk (os : Os) (pythonVers : Version) (rel : Release) : Bool :=
  rel.packagetype == "bdist_wheel" &&
    match osFromWheelFname rel.filename with
    | OsOut.ok wheelOs =>
      (match rel.requires_python with
       | Option.none => true
       | some pyReq => pyReq.isCompatible pythonVers)
      && (wheelOs == os || wheelOs == Os.any)
      && (match Version.fromCpStr rel.python_version with
          | some reqV =>
            veq reqV pythonVers || rel.python_version == "py2.py3"
              || rel.python_version == "py3"
          | Option.none => true)
    | _ => false

/-- Wheel compatibility exactly as the claim states it: (a) the
`requires_python` constraint, when present, is satisfied by the host
Python version; (b) the OS parsed from the filename equals the host OS
or `Any`; (c) the interpreter tag parses to a version equal to the host
Python version, or is the literal `py3` / `py2.py3`. -/
def specWheelCompatible (os : Os) (pythonVers : Version) (rel : Release) : Prop :=
  (∀ c, rel.requires_python = some c → c.isCompatible pythonVers = true)
  ∧ (∃ o, osFromWheelFname rel.filename = OsOut.ok o ∧ (o = os ∨ o = Os.any))
  ∧ ((∃ rv, Version.fromCpStr rel.python_version = some rv
        ∧ veq rv pythonVers = true)
     ∨ rel.python_version = "py3" ∨ rel.python_version = "py2.py3")

/-- Wheel compatibility as amended: clause (c) additionally holds when
the interpreter tag fails to parse as a version (the code only prints a
warning in that case and keeps the wheel). -/
def specWheelCompatibleAmended (os : Os) (pythonVers : Version)
    (rel : Release) : Prop :=
  (∀ c, rel.requires_python = some c → c.isCompatible pythonVers = true)
  ∧ (∃ o, osFromWheelFname rel.filename = OsOut.ok o ∧ (o = os ∨ o = Os.any))
  ∧ ((∃ rv, Version.fromCpStr rel.python_version = some rv
        ∧ veq rv pythonVers = true)
     ∨ rel.python_version = "py3" ∨ rel.python_version = "py2.py3"
     ∨ Version.fromCpStr rel.python_version = Option.none)

theorem classify_eq_filters (os : Os) (pythonVers : Version) :
    ∀ data : List Release,
    (∀ rel ∈ data, rel.packagetype = "bdist_wheel" ∨ rel.packagetype = "sdist") →
    (∀ rel ∈ data, rel.packagetype = "bdist_wheel" →
      osFromWheelFname rel.filename ≠ OsOut.err
        ∧ osFromWheelFname rel.filename ≠ OsOut.panicked) →
    classifyReleases os pythonVers data
      = Outcome.ok (data.filter (wheelOk os pythonVers),
          data.filter (fun r => r.packagetype == "sdist")) := by
  intro data
  induction data with
  | nil => intro _ _; rfl
  | cons rel rest ih =>
    intro htypes hos
    have hrest := ih (fun r hr => htypes r (List.mem_cons_of_mem rel hr))
      (fun r hr => hos r (List.mem_cons_of_mem rel hr))
    rcases htypes rel (List.mem_cons_self rel rest) with hw | hs
    · have hosr := hos rel (List.mem_cons_self rel rest) hw
      obtain ⟨o, ho⟩ : ∃ o, osFromWheelFname rel.filename = OsOut.ok o := by
        cases hoo : osFromWheelFname rel.filename with
        | ok o => exact ⟨o, rfl⟩
        | err => exact absurd hoo hosr.1
        | panicked => exact absurd hoo hosr.2
      have hsf : (rel.packagetype == "sdist") = false := by
        rw [hw]; rfl
      have hwt : (rel.packagetype == "bdist_wheel") = true := by
        rw [hw]; rfl
      simp only [classifyReleases, hw, if_pos, ho, hrest, List.filter_cons,
        hsf, hwt, wheelOk]
      simp [ho]
    · have hns : rel.packagetype ≠ "bdist_wheel" := by
        rw [hs]; intro hc; exact absurd hc (by decide)
      have hsf : (rel.packagetype == "sdist") = true := by
        rw [hs]; rfl
      have hwt : (rel.packagetype == "bdist_wheel") = false := by
        rw [hs]; rfl
      simp only [classifyReleases, if_neg hns, hs, if_pos, hrest,
        List.filter_cons, hsf, hwt, wheelOk]
      simp

theorem wheelOk_iff (os : Os) (pythonVers : Version) (rel : Release) :
    wheelOk os pythonVers rel = true
      ↔ (rel.packagetype = "bdist_wheel"
          ∧ specWheelCompatibleAmended os pythonVers rel) := by
  unfold wheelOk specWheelCompatibleAmended
  cases ho : osFromWheelFname rel.filename with
  | err => simp [ho]
  | panicked => simp [ho]
  | ok o =>
    cases hr : rel.requires_python with
    | none =>
      cases hc : Version.fromCpStr rel.python_version with
      | none => simp [ho, hr, hc]
      | some rv => simp [ho, hr, hc]; intro _ _; tauto
    | some pyReq =>
      cases hc : Version.fromCpStr rel.python_version with
      | none => simp [ho, hr, hc]
      | some rv => simp [ho, hr, hc]; intro _; tauto

/-- C1 amended: for a release list whose package types are wheel/sdist and
whose wheel filenames have a parseable OS, the engine keeps exactly the
wheels satisfying (a) `requires_python` (when present) accepts the host
Python version, (b) the filename OS is the host OS or `Any`, and (c) the
interpreter tag parses to a version equal to the host version, is the
literal `py3` / `py2.py3`, or fails to parse as a version; it installs
the first compatible wheel in index order, otherwise the first sdist in
index order, and fails when neither exists. -/
theorem c1_artifact_selection (os : Os) (pythonVers : Version)
    (data : List Release)
    (htypes : ∀ rel ∈ data,
      rel.packagetype = "bdist_wheel" ∨ rel.packagetype = "sdist")
    (hos : ∀ rel ∈ data, rel.packagetype = "bdist_wheel" →
      osFromWheelFname rel.filename ≠ OsOut.err
        ∧ osFromWheelFname rel.filename ≠ OsOut.panicked) :
    (∀ rel, rel ∈ data.filter (wheelOk os pythonVers)
      ↔ (rel ∈ data ∧ rel.packagetype = "bdist_wheel"
          ∧ specWheelCompatibleAmended os pythonVers rel))
    ∧ (∀ c rest, data.filter (wheelOk os pythonVers) = c :: rest →
        selectRelease os pythonVers data = Outcome.ok (c, PackageType.wheel))
    ∧ (data.filter (wheelOk os pythonVers) = [] →
        ∀ s rest, data.filter (fun r => r.packagetype == "sdist") = s :: rest →
          selectRelease os pythonVers data = Outcome.ok (s, PackageType.source))
    ∧ (data.filter (wheelOk os pythonVers) = [] →
        data.filter (fun r => r.packagetype == "sdist") = [] →
        selectRelease os pythonVers data
          = Outcome.abortE "Unable to find a compatible release") := by
  have hcl := classify_eq_filters os pythonVers data htypes hos
  refine ⟨fun rel => ?_, fun c rest hc => ?_, fun hc s rest hs => ?_,
    fun hc hs => ?_⟩
  · rw [List.mem_filter, wheelOk_iff]
  · unfold selectRelease
    rw [hcl, hc]
  · unfold selectRelease
    rw [hcl, hc, hs]
  · unfold selectRelease
    rw [hcl, hc, hs]

/-- Counterexample to C1 as stated: a wheel whose interpreter tag
`notatag` does not parse as a version and is not `py3` / `py2.py3` is
nevertheless classified compatible and installed (the `Err` branch of
`Version::from_cp_str` at main.rs lines 626-631 only prints a warning),
while the claim's clause (c) rejects it. -/
theorem c1_counterexample :
    selectRelease Os.linux ⟨3, some 7, some 0, Option.none, Modifier.none⟩
        [⟨"bdist_wheel", Option.none, "notatag", "demo-1.0-notatag-zzz-any.whl", "u", "h"⟩]
      = Outcome.ok
          (⟨"bdist_wheel", Option.none, "notatag", "demo-1.0-notatag-zzz-any.whl", "u", "h"⟩,
           PackageType.wheel)
    ∧ ¬ specWheelCompatible Os.linux ⟨3, some 7, some 0, Option.none, Modifier.none⟩
        ⟨"bdist_wheel", Option.none, "notatag", "demo-1.0-notatag-zzz-any.whl", "u", "h"⟩ := by
  constructor
  · decide
  · intro h
    rcases h.2.2 with ⟨rv, hrv, _⟩ | h3 | h3
    · rw [show Version.fromCpStr
          (⟨"bdist_wheel", Option.none, "notatag", "demo-1.0-notatag-zzz-any.whl", "u", "h"⟩
            : Release).python_version = Option.none from by decide] at hrv
      exact Option.noConfusion hrv
    · exact absurd h3 (by decide)
    · exact absurd h3 (by decide)

/-- Witness for C1 amended at concrete inputs: a `cp37` any-platform
wheel is selected ahead of an sdist for host Python 3.7 on Linux. -/
theorem c1_artifact_selection_witness :
    selectRelease Os.linux ⟨3, some 7, some 0, Option.none, Modifier.none⟩
        [⟨"bdist_wheel", Option.none, "cp37", "demo-1.0-cp37-none-any.whl", "u", "h"⟩,
         ⟨"sdist", Option.none, "source", "demo-1.0.tar.gz", "u2", "h2"⟩]
      = Outcome.ok
          (⟨"bdist_wheel", Option.none, "cp37", "demo-1.0-cp37-none-any.whl", "u", "h"⟩,
           PackageType.wheel) :=
  (c1_artifact_selection Os.linux ⟨3, some 7, some 0, Option.none, Modifier.none⟩
      [⟨"bdist_wheel", Option.none, "cp37", "demo-1.0-cp37-none-any.whl", "u", "h"⟩,
       ⟨"sdist", Option.none, "source", "demo-1.0.tar.gz", "u2", "h2"⟩]
      (by decide) (by decide)).2.1
    ⟨"bdist_wheel", Option.none, "cp37", "demo-1.0-cp37-none-any.whl", "u", "h"⟩
    [] (by decide)

theorem installPhase_all_install (warehouse : Warehouse)
    (installer : Installer) (os : Os) (pythonVers : Version) :
    ∀ l a, a ∈ (installPhase warehouse installer os pythonVers l).1 →
      ∃ n v, a = SyncAction.install n v := by
  intro l
  induction l with
  | nil => intro a ha; exact absurd ha (List.not_mem_nil a)
  | cons p rest ih =>
    intro a ha
    rw [installPhase] at ha
    cases hw : warehouse p.1 p.2 with
    | none => simp [hw] at ha
    | some data =>
      simp only [hw] at ha
      cases hsel : selectRelease os pythonVers data with
      | abortE m => simp [hsel] at ha
      | panicked m => simp [hsel] at ha
      | ok rp =>
        obtain ⟨rel, ptype⟩ := rp
        simp only [hsel] at ha
        by_cases hins : installer p.1 p.2 rel ptype = true
        · simp only [hins, if_true] at ha
          rcases List.mem_cons.mp ha with he | ht
          · exact ⟨p.1, p.2, he⟩
          · exact ih a ht
        · rw [Bool.not_eq_true] at hins
          simp [hins] at ha

theorem installPhase_success (warehouse : Warehouse)
    (installer : Installer) (os : Os) (pythonVers : Version) :
    ∀ l, (installPhase warehouse installer os pythonVers l).2 = Option.none →
      (installPhase warehouse installer os pythonVers l).1
        = l.map (fun p => SyncAction.install p.1 p.2) := by
  intro l
  induction l with
  | nil => intro _; rfl
  | cons p rest ih =>
    intro hf
    rw [installPhase] at hf ⊢
    cases hw : warehouse p.1 p.2 with
    | none => simp [hw] at hf
    | some data =>
      simp only [hw] at hf ⊢
      cases hsel : selectRelease os pythonVers data with
      | abortE m => simp [hsel] at hf
      | panicked m => simp [hsel] at hf
      | ok rp =>
        obtain ⟨rel, ptype⟩ := rp
        simp only [hsel] at hf ⊢
        by_cases hins : installer p.1 p.2 rel ptype = true
        · simp only [hins, if_true] at hf ⊢
          rw [List.map_cons, ih hf]
        · rw [Bool.not_eq_true] at hins
          simp [hins] at hf

theorem append_order (l1 l2 : List SyncAction)
    (h1 : ∀ a ∈ l1, ∃ n v, a = SyncAction.install n v)
    (h2 : ∀ a ∈ l2, ∃ n v, a = SyncAction.uninstall n v) :
    ∀ i j n v n2 v2, (l1 ++ l2).get? i = some (SyncAction.uninstall n v) →
      (l1 ++ l2).get? j = some (SyncAction.install n2 v2) → j < i := by
  intro i j n v n2 v2 hi hj
  have hilen : l1.length ≤ i := by
    by_contra hlt
    push_neg at hlt
    rw [List.get?_append hlt] at hi
    obtain ⟨n', v', he⟩ := h1 _ (List.get?_mem hi)
    exact SyncAction.noConfusion he
  have hjlen : j < l1.length := by
    by_contra hge
    push_neg at hge
    rw [List.get?_append_right hge] at hj
    obtain ⟨n', v', he⟩ := h2 _ (List.get?_mem hj)
    exact SyncAction.noConfusion he
  omega

theorem veq_trans {a b c : Version} (h1 : veq a b = true)
    (h2 : veq b c = true) : veq a c = true := by
  unfold veq at h1 h2 ⊢
  rw [beq_iff_eq] at h1 h2 ⊢
  exact h1.trans h2

theorem applyActions_superset (resolved : List (String × Version)) :
    ∀ (acts : List SyncAction) (lib : List (String × Version))
      (p : String × Version),
      (∀ n v, SyncAction.uninstall n v ∈ acts →
        requiredIn resolved (n, v) = false) →
      p ∈ lib → requiredIn resolved p = true → p ∈ applyActions lib acts := by
  intro acts
  induction acts with
  | nil => intro lib p _ hp _; exact hp
  | cons a rest ih =>
    intro lib p hnr hp hreq
    cases a with
    | install n v =>
      rw [applyActions]
      exact ih (lib ++ [(n, v)]) p
        (fun n' v' h => hnr n' v' (List.mem_cons_of_mem _ h))
        (List.mem_append_left _ hp) hreq
    | uninstall n v =>
      rw [applyActions]
      apply ih _ p (fun n' v' h => hnr n' v' (List.mem_cons_of_mem _ h)) _ hreq
      rw [List.mem_filter]
      refine ⟨hp, ?_⟩
      have hnv : requiredIn resolved (n, v) = false :=
        hnr n v (List.mem_cons_self _ _)
      by_contra hcon
      rw [Bool.not_eq_true] at hcon
      have hcon2 : (p.1 == n && veq p.2 v) = true := by
        revert hcon
        cases p.1 == n && veq p.2 v <;> simp
      rw [Bool.and_eq_true, beq_iff_eq] at hcon2
      have : requiredIn resolved (n, v) = true := by
        unfold requiredIn at hreq ⊢
        rw [List.any_eq_true] at hreq ⊢
        obtain ⟨q, hq, hqp⟩ := hreq
        rw [Bool.and_eq_true] at hqp
        refine ⟨q, hq, ?_⟩
        rw [Bool.and_eq_true]
        constructor
        · rw [beq_iff_eq] at hqp ⊢
          rw [hqp.1, hcon2.1]
        · exact veq_trans hqp.2 hcon2.2
      rw [this] at hnv
      exact Bool.noConfusion hnv

/-- C2: within one sync, every install precedes every uninstall in the
action sequence, and after any prefix of the actions the library still
contains every package that was installed before the sync and is still
required by the resolved set. -/
theorem c2_installs_before_uninstalls (resolveF : Resolver)
    (warehouse : Warehouse) (installer : Installer) (reqs : List Req)
    (installed : List (String × Version)) (os : Os) (pythonVers : Version)
    (resolved : List (String × Version))
    (hres : resolveF reqs installed os [] pythonVers = Except.ok resolved) :
    (∀ i j n v n2 v2,
      (syncDeps resolveF warehouse installer reqs installed os
          pythonVers).actions.get? i = some (SyncAction.uninstall n v) →
      (syncDeps resolveF warehouse installer reqs installed os
          pythonVers).actions.get? j = some (SyncAction.install n2 v2) →
      j < i)
    ∧ (∀ k p, p ∈ installed → requiredIn resolved p = true →
        p ∈ applyActions installed
          ((syncDeps resolveF warehouse installer reqs installed os
              pythonVers).actions.take k)) := by
  cases hsplit : installPhase warehouse installer os pythonVers
      (toInstallList resolved installed) with
  | mk acts f =>
    have hfst : (installPhase warehouse installer os pythonVers
        (toInstallList resolved installed)).1 = acts := by rw [hsplit]
    have hall : ∀ a ∈ acts, ∃ n v, a = SyncAction.install n v := by
      intro a ha
      exact installPhase_all_install warehouse installer os pythonVers
        (toInstallList resolved installed) a (hfst ▸ ha)
    cases f with
    | some m =>
      have hs : syncDeps resolveF warehouse installer reqs installed os
          pythonVers = ⟨acts, Option.none, some m⟩ := by
        simp only [syncDeps, hres, hsplit]
      rw [hs]
      constructor
      · intro i j n v n2 v2 hi hj
        obtain ⟨n', v', he⟩ := hall _ (List.get?_mem hi)
        exact SyncAction.noConfusion he
      · intro k p hp hreq
        apply applyActions_superset resolved _ _ _ _ hp hreq
        intro n v hmem
        obtain ⟨n', v', he⟩ := hall _ (List.take_subset k acts hmem)
        exact SyncAction.noConfusion he
    | none =>
      have hs : syncDeps resolveF warehouse installer reqs installed os
          pythonVers
          = ⟨acts ++ (toRemoveList resolved installed).map
              (fun p => SyncAction.uninstall p.1 p.2),
             some (mkLock resolved), Option.none⟩ := by
        simp only [syncDeps, hres, hsplit]
      rw [hs]
      have huni : ∀ a ∈ (toRemoveList resolved installed).map
          (fun p => SyncAction.uninstall p.1 p.2),
          ∃ n v, a = SyncAction.uninstall n v := by
        intro a ha
        obtain ⟨q, _, he⟩ := List.mem_map.mp ha
        exact ⟨q.1, q.2, he.symm⟩
      constructor
      · exact append_order acts _ hall huni
      · intro k p hp hreq
        apply applyActions_superset resolved _ _ _ _ hp hreq
        intro n v hmem
        have hmem2 := List.take_subset k _ hmem
        rcases List.mem_append.mp hmem2 with hl | hr
        · obtain ⟨n', v', he⟩ := hall _ hl
          exact SyncAction.noConfusion he
        · obtain ⟨q, hq, he⟩ := List.mem_map.mp hr
          obtain ⟨q1, q2⟩ := q
          injection he with he1 he2
          subst he1
          subst he2
          have hfilt := (List.mem_filter.mp hq).2
          revert hfilt
          cases hreqd : requiredIn resolved (q1, q2) <;> simp

/-- Witness for C2 at concrete inputs: syncing resolved set
`{a 1.0.0, c 2.0.0}` against installed `{a 1.0.0, b 3.0.0}` performs
`install c` then `uninstall b`, and after both actions the retained
package `a` is still present. -/
theorem c2_installs_before_uninstalls_witness :
    ("a", (⟨1, some 0, some 0, Option.none, Modifier.none⟩ : Version))
      ∈ applyActions
        [("a", ⟨1, some 0, some 0, Option.none, Modifier.none⟩),
         ("b", ⟨3, some 0, some 0, Option.none, Modifier.none⟩)]
        ((syncDeps
            (fun _ _ _ _ _ => Except.ok
              [("a", ⟨1, some 0, some 0, Option.none, Modifier.none⟩),
               ("c", ⟨2, some 0, some 0, Option.none, Modifier.none⟩)])
            (fun _ _ => some [⟨"sdist", Option.none, "source", "f", "u", "h"⟩])
            (fun _ _ _ _ => true)
            []
            [("a", ⟨1, some 0, some 0, Option.none, Modifier.none⟩),
             ("b", ⟨3, some 0, some 0, Option.none, Modifier.none⟩)]
            Os.linux ⟨3, some 7, Option.none, Option.none, Modifier.none⟩).actions.take 2) :=
  (c2_installs_before_uninstalls
      (fun _ _ _ _ _ => Except.ok
        [("a", ⟨1, some 0, some 0, Option.none, Modifier.none⟩),
         ("c", ⟨2, some 0, some 0, Option.none, Modifier.none⟩)])
      (fun _ _ => some [⟨"sdist", Option.none, "source", "f", "u", "h"⟩])
      (fun _ _ _ _ => true)
      []
      [("a", ⟨1, some 0, some 0, Option.none, Modifier.none⟩),
       ("b", ⟨3, some 0, some 0, Option.none, Modifier.none⟩)]
      Os.linux ⟨3, some 7, Option.none, Option.none, Modifier.none⟩
      [("a", ⟨1, some 0, some 0, Option.none, Modifier.none⟩),
       ("c", ⟨2, some 0, some 0, Option.none, Modifier.none⟩)]
      rfl).2 2
    ("a", ⟨1, some 0, some 0, Option.none, Modifier.none⟩)
    (by decide) (by decide)

theorem exists_pair_mem (l : List (String × Version)) (n : String)
    (v : Version) : (∃ q ∈ l, q.1 = n ∧ q.2 = v) ↔ (n, v) ∈ l := by
  constructor
  · rintro ⟨⟨q1, q2⟩, hq, h1, h2⟩
    subst h1
    subst h2
    exact hq
  · intro h
    exact ⟨(n, v), h, rfl, rfl⟩

/-- C3: when a sync completes without failure, it installed exactly the
resolved pairs with no installed pair of the same lowercased name and
equal version, and it uninstalled exactly the installed pairs paired (by
lowercased name and equal version) with no resolved pair. -/
theorem c3_sync_diff (resolveF : Resolver) (warehouse : Warehouse)
    (installer : Installer) (reqs : List Req)
    (installed : List (String × Version)) (os : Os) (pythonVers : Version)
    (resolved : List (String × Version)) (n : String) (v : Version)
    (hres : resolveF reqs installed os [] pythonVers = Except.ok resolved)
    (hok : (syncDeps resolveF warehouse installer reqs installed os
        pythonVers).failure = Option.none) :
    (SyncAction.install n v ∈ (syncDeps resolveF warehouse installer reqs
        installed os pythonVers).actions
      ↔ ((n, v) ∈ resolved
          ∧ ¬ ∃ q ∈ installed, strLower q.1 = strLower n ∧ veq q.2 v = true))
    ∧ (SyncAction.uninstall n v ∈ (syncDeps resolveF warehouse installer reqs
        installed os pythonVers).actions
      ↔ ((n, v) ∈ installed
          ∧ ¬ ∃ q ∈ resolved, strLower q.1 = strLower n ∧ veq q.2 v = true)) := by
  cases hsplit : installPhase warehouse installer os pythonVers
      (toInstallList resolved installed) with
  | mk acts f =>
    cases f with
    | some m =>
      have hs : (syncDeps resolveF warehouse installer reqs installed os
          pythonVers).failure = some m := by
        simp only [syncDeps, hres, hsplit]
      rw [hs] at hok
      exact Option.noConfusion hok
    | none =>
      have hs : (syncDeps resolveF warehouse installer reqs installed os
          pythonVers).actions
          = (toInstallList resolved installed).map
              (fun p => SyncAction.install p.1 p.2)
            ++ (toRemoveList resolved installed).map
              (fun p => SyncAction.uninstall p.1 p.2) := by
        have hacts : acts = (toInstallList resolved installed).map
            (fun p => SyncAction.install p.1 p.2) := by
          have h2 : (installPhase warehouse installer os pythonVers
              (toInstallList resolved installed)).2 = Option.none := by
            rw [hsplit]
          have h1 := installPhase_success warehouse installer os pythonVers
            (toInstallList resolved installed) h2
          rw [hsplit] at h1
          exact h1
        simp only [syncDeps, hres, hsplit, hacts]
      rw [hs]
      constructor
      · rw [List.mem_append]
        simp only [List.mem_map, SyncAction.install.injEq]
        constructor
        · rintro (⟨q, hq, h1, h2⟩ | ⟨q, _, h⟩)
          · have hm : (n, v) ∈ toInstallList resolved installed := by
              rw [← exists_pair_mem]
              exact ⟨q, hq, h1, h2⟩
            rw [toInstallList, List.mem_filter] at hm
            refine ⟨hm.1, ?_⟩
            have hf := hm.2
            rw [Bool.not_eq_true'] at hf
            intro hex
            obtain ⟨q2, hq2, he1, he2⟩ := hex
            have : alreadyInstalled installed (n, v) = true := by
              rw [alreadyInstalled, List.any_eq_true]
              exact ⟨q2, hq2, by
                rw [Bool.and_eq_true, beq_iff_eq]
                exact ⟨he1, he2⟩⟩
            rw [this] at hf
            exact Bool.noConfusion hf
          · exact SyncAction.noConfusion h
        · rintro ⟨hmem, hnex⟩
          refine Or.inl ?_
          have hm : (n, v) ∈ toInstallList resolved installed := by
            rw [toInstallList, List.mem_filter]
            refine ⟨hmem, ?_⟩
            rw [Bool.not_eq_true']
            cases ha : alreadyInstalled installed (n, v) with
            | false => rfl
            | true =>
              rw [alreadyInstalled, List.any_eq_true] at ha
              obtain ⟨q, hq, hqq⟩ := ha
              rw [Bool.and_eq_true, beq_iff_eq] at hqq
              exact absurd ⟨q, hq, hqq.1, hqq.2⟩ hnex
          rw [← exists_pair_mem] at hm
          obtain ⟨q, hq, h1, h2⟩ := hm
          exact ⟨q, hq, h1, h2⟩
      · rw [List.mem_append]
        simp only [List.mem_map, SyncAction.uninstall.injEq]
        constructor
        · rintro (⟨q, _, h⟩ | ⟨q, hq, h1, h2⟩)
          · exact SyncAction.noConfusion h
          · have hm : (n, v) ∈ toRemoveList resolved installed := by
              rw [← exists_pair_mem]
              exact ⟨q, hq, h1, h2⟩
            rw [toRemoveList, List.mem_filter] at hm
            refine ⟨hm.1, ?_⟩
            have hf := hm.2
            rw [Bool.not_eq_true'] at hf
            intro hex
            obtain ⟨q2, hq2, he1, he2⟩ := hex
            have : requiredIn resolved (n, v) = true := by
              rw [requiredIn, List.any_eq_true]
              exact ⟨q2, hq2, by
                rw [Bool.and_eq_true, beq_iff_eq]
                exact ⟨he1, he2⟩⟩
            rw [this] at hf
            exact Bool.noConfusion hf
        · rintro ⟨hmem, hnex⟩
          refine Or.inr ?_
          have hm : (n, v) ∈ toRemoveList resolved installed := by
            rw [toRemoveList, List.mem_filter]
            refine ⟨hmem, ?_⟩
            rw [Bool.not_eq_true']
            cases ha : requiredIn resolved (n, v) with
            | false => rfl
            | true =>
              rw [requiredIn, List.any_eq_true] at ha
              obtain ⟨q, hq, hqq⟩ := ha
              rw [Bool.and_eq_true, beq_iff_eq] at hqq
              exact absurd ⟨q, hq, hqq.1, hqq.2⟩ hnex
          rw [← exists_pair_mem] at hm
          obtain ⟨q, hq, h1, h2⟩ := hm
          exact ⟨q, hq, h1, h2⟩

/-- Witness for C3 at concrete inputs: `c 2.0.0` is resolved and not
installed, so the sync installs it. -/
theorem c3_sync_diff_witness :
    SyncAction.install "c" ⟨2, some 0, some 0, Option.none, Modifier.none⟩
      ∈ (syncDeps
          (fun _ _ _ _ _ => Except.ok
            [("a", ⟨1, some 0, some 0, Option.none, Modifier.none⟩),
             ("c", ⟨2, some 0, some 0, Option.none, Modifier.none⟩)])
          (fun _ _ => some [⟨"sdist", Option.none, "source", "f", "u", "h"⟩])
          (fun _ _ _ _ => true)
          []
          [("a", ⟨1, some 0, some 0, Option.none, Modifier.none⟩),
           ("b", ⟨3, some 0, some 0, Option.none, Modifier.none⟩)]
          Os.linux ⟨3, some 7, Option.none, Option.none, Modifier.none⟩).actions :=
  ((c3_sync_diff
      (fun _ _ _ _ _ => Except.ok
        [("a", ⟨1, some 0, some 0, Option.none, Modifier.none⟩),
         ("c", ⟨2, some 0, some 0, Option.none, Modifier.none⟩)])
      (fun _ _ => some [⟨"sdist", Option.none, "source", "f", "u", "h"⟩])
      (fun _ _ _ _ => true)
      []
      [("a", ⟨1, some 0, some 0, Option.none, Modifier.none⟩),
       ("b", ⟨3, some 0, some 0, Option.none, Modifier.none⟩)]
      Os.linux ⟨3, some 7, Option.none, Option.none, Modifier.none⟩
      [("a", ⟨1, some 0, some 0, Option.none, Modifier.none⟩),
       ("c", ⟨2, some 0, some 0, Option.none, Modifier.none⟩)]
      "c" ⟨2, some 0, some 0, Option.none, Modifier.none⟩
      rfl (by decide)).1).mpr (by decide)
